import Mathlib

/-!
Shallow embedding of the flood-forecasting data-entry form (src/src/App.tsx):
the field schema, the import normalizer (JSON and CSV paths of
handleFileUpload), the validator (validateForm), and the submission state
machine (handleSubmit and the submit button's disabled condition).
-/

namespace FloodForm

/-- The 23 schema fields of the FormData interface, in declaration order. -/
inductive Field where
  | rainfall_intensity
  | rainfall_accumulation
  | temperature
  | humidity
  | wind_speed
  | river_level
  | river_discharge
  | soil_moisture
  | groundwater_level
  | elevation
  | slope
  | land_use
  | soil_type
  | sat_rainfall
  | sat_soil_moisture
  | drone_image
  | iot_river_level
  | iot_river_flow
  | iot_temp
  | iot_humidity
  | iot_wind
  | past_flood
  | flood_severity
  | flood_duration
  deriving DecidableEq

/-- The JavaScript property name of each schema field. -/
def fieldName : Field → String
  | .rainfall_intensity => "rainfall_intensity"
  | .rainfall_accumulation => "rainfall_accumulation"
  | .temperature => "temperature"
  | .humidity => "humidity"
  | .wind_speed => "wind_speed"
  | .river_level => "river_level"
  | .river_discharge => "river_discharge"
  | .soil_moisture => "soil_moisture"
  | .groundwater_level => "groundwater_level"
  | .elevation => "elevation"
  | .slope => "slope"
  | .land_use => "land_use"
  | .soil_type => "soil_type"
  | .sat_rainfall => "sat_rainfall"
  | .sat_soil_moisture => "sat_soil_moisture"
  | .drone_image => "drone_image"
  | .iot_river_level => "iot_river_level"
  | .iot_river_flow => "iot_river_flow"
  | .iot_temp => "iot_temp"
  | .iot_humidity => "iot_humidity"
  | .iot_wind => "iot_wind"
  | .past_flood => "past_flood"
  | .flood_severity => "flood_severity"
  | .flood_duration => "flood_duration"

/-- All schema fields in declaration order (the own keys of initialData). -/
def allFields : List Field :=
  [.rainfall_intensity, .rainfall_accumulation, .temperature, .humidity,
   .wind_speed, .river_level, .river_discharge, .soil_moisture,
   .groundwater_level, .elevation, .slope, .land_use, .soil_type,
   .sat_rainfall, .sat_soil_moisture, .drone_image, .iot_river_level,
   .iot_river_flow, .iot_temp, .iot_humidity, .iot_wind, .past_flood,
   .flood_severity, .flood_duration]

/-- A FieldSet: the form state, a string value for every schema field. -/
abbrev FieldSet := Field → String

/-- The initialData constant: every field defaults to the empty string,
except past_flood which defaults to "no". -/
def initialData : FieldSet
  | .rainfall_intensity => ""
  | .rainfall_accumulation => ""
  | .temperature => ""
  | .humidity => ""
  | .wind_speed => ""
  | .river_level => ""
  | .river_discharge => ""
  | .soil_moisture => ""
  | .groundwater_level => ""
  | .elevation => ""
  | .slope => ""
  | .land_use => ""
  | .soil_type => ""
  | .sat_rainfall => ""
  | .sat_soil_moisture => ""
  | .drone_image => ""
  | .iot_river_level => ""
  | .iot_river_flow => ""
  | .iot_temp => ""
  | .iot_humidity => ""
  | .iot_wind => ""
  | .past_flood => "no"
  | .flood_severity => ""
  | .flood_duration => ""

/-- The dynamic membership test "key in initialData": looks the key up among
the schema fields, returning the matching field when it exists. -/
def parseField (k : String) : Option Field :=
  allFields.find? (fun f => fieldName f == k)

/-- Functional update of one field of a FieldSet (the dynamic assignment
"mappedData[key] = v" for a schema key). -/
def setField (fd : FieldSet) (f : Field) (v : String) : FieldSet :=
  fun g => if g = f then v else fd g

/-- A JavaScript value as produced by JSON.parse: a string, a number
(modelled as an integer), a boolean, null, an object (a key-value list),
or an array. -/
inductive JSValue where
  | str (s : String)
  | num (n : Int)
  | bool (b : Bool)
  | null
  | obj (kvs : List (String × JSValue))
  | arr (xs : List JSValue)

mutual

/-- JavaScript stringification String(v). The flag records whether the value
is being converted as an element of an array join, where null renders as the
empty string instead of "null". -/
def jsStr : Bool → JSValue → String
  | _, .str s => s
  | _, .num n => toString n
  | _, .bool b => if b then "true" else "false"
  | inArr, .null => if inArr then "" else "null"
  | _, .obj _ => "[object Object]"
  | _, .arr xs => String.intercalate "," (jsElemStrs xs)

/-- The element conversions performed by the join of an array. -/
def jsElemStrs : List JSValue → List String
  | [] => []
  | v :: vs => jsStr true v :: jsElemStrs vs

end

/-- JavaScript String(v) at top level. -/
def jsToString (v : JSValue) : String := jsStr false v

/-- The own enumerable property list of a JavaScript value, as iterated by
Object.keys together with the indexed accesses json[key]. Object.keys throws
a TypeError exactly on null; a plain object yields its entries; a string
yields its character positions; an array yields its indexed elements; numbers
and booleans yield nothing. -/
def ownEntries : JSValue → Option (List (String × JSValue))
  | .null => none
  | .obj kvs => some kvs
  | .str s => some (s.data.enum.map (fun ic => (toString ic.1, JSValue.str (String.mk [ic.2]))))
  | .arr xs => some (xs.enum.map (fun iv => (toString iv.1, iv.2)))
  | .num _ => some []
  | .bool _ => some []

/-- The component state touched by the import and validation logic: the
formData FieldSet and the errors list. -/
structure AppState where
  formData : FieldSet
  errors : List String

/-- One iteration of the normalization loop: when the record key is in the
schema, assign the stringified value to that field, else skip the key. -/
def applyStep (acc : FieldSet) (kv : String × JSValue) : FieldSet :=
  match parseField kv.1 with
  | some f => setField acc f (jsToString kv.2)
  | none => acc

/-- The shared normalization loop of both import paths: start from a copy of
initialData and, for each key of the parsed record that is in the schema,
assign the stringified value to that field. -/
def applyRecord (entries : List (String × JSValue)) : FieldSet :=
  entries.foldl applyStep initialData

/-- The JSON branch's onload handler: parsed is the outcome of JSON.parse
(none when parsing throws). On success the whole formData is replaced and
errors cleared; when parsing throws, or Object.keys throws on the parsed
value, the catch block records the single error message. -/
def handleJsonLoad (parsed : Option JSValue) (s : AppState) : AppState :=
  match parsed with
  | none => { s with errors := ["Invalid JSON file format"] }
  | some v =>
    match ownEntries v with
    | none => { s with errors := ["Invalid JSON file format"] }
    | some es => { formData := applyRecord es, errors := [] }

/-- A CSV data row as delivered by Papa.parse with a header row: header
names paired with cell strings. -/
abbrev CsvRow := List (String × String)

/-- The outcome of Papa.parse on the file: either the parsed data rows
(delivered to the complete callback) or a read error (the error callback). -/
inductive CsvOutcome where
  | rows (rs : List CsvRow)
  | err

/-- The complete callback of the CSV branch: when there is at least one data
row, the first row is normalized and replaces formData with errors cleared;
otherwise the single empty-or-invalid error is recorded. -/
def handleCsvComplete (rs : List CsvRow) (s : AppState) : AppState :=
  match rs with
  | row :: _ =>
      { formData := applyRecord (row.map (fun kv => (kv.1, JSValue.str kv.2))),
        errors := [] }
  | [] => { s with errors := ["CSV file is empty or invalid"] }

/-- The CSV branch: dispatch on the Papa.parse outcome to the complete or
error callback. -/
def handleCsvOutcome (o : CsvOutcome) (s : AppState) : AppState :=
  match o with
  | .rows rs => handleCsvComplete rs s
  | .err => { s with errors := ["Error parsing CSV file"] }

/-- JavaScript String.prototype.split at a single-character separator:
splits at every occurrence, keeping empty segments, and always returns at
least one segment. -/
def splitOnChar (c : Char) : List Char → List (List Char)
  | [] => [[]]
  | x :: xs =>
    match splitOnChar c xs with
    | [] => [[]]
    | s :: rest => if x = c then [] :: s :: rest else (x :: s) :: rest

/-- The extension extraction file.name.split(.).pop()?.toLowerCase(). -/
def getExtension (name : String) : String :=
  String.mk (((splitOnChar '.' name.data).getLastD []).map Char.toLower)

/-- An uploaded file: its name, together with the outcomes the two external
parsers would produce on its content (JSON.parse, none when it throws, and
Papa.parse). -/
structure UploadFile where
  name : String
  jsonResult : Option JSValue
  csvResult : CsvOutcome

/-- The handleFileUpload handler: extract the lowercased extension and
dispatch to the JSON branch, the CSV branch, or the unsupported-type error. -/
def handleFileUpload (file : UploadFile) (s : AppState) : AppState :=
  if getExtension file.name = "json" then handleJsonLoad file.jsonResult s
  else if getExtension file.name = "csv" then handleCsvOutcome file.csvResult s
  else { s with errors := ["Unsupported file type. Please use JSON or CSV."] }

/-- The fixed required-field list of validateForm, in declaration order. -/
def requiredFields : List Field :=
  [.rainfall_intensity, .temperature, .river_level, .elevation, .land_use]

/-- The global single-character replacement of each underscore by a space,
the effect of field.replace on every field name. -/
def underscoresToSpaces (s : String) : String :=
  String.mk (s.data.map (fun c => if c = '_' then ' ' else c))

/-- The error message pushed for a missing required field: the field name
with underscores replaced by spaces, then the required suffix. -/
def requiredMsg (f : Field) : String :=
  underscoresToSpaces (fieldName f) ++ " is required"

/-- The validateForm computation: walk the required fields in order and push
a message for each whose value is falsy (the empty string). -/
def validateForm (fd : FieldSet) : List String :=
  requiredFields.foldl
    (fun acc f => if fd f = "" then acc ++ [requiredMsg f] else acc)
    []

/-- The error side effect of a submit attempt: setErrors(newErrors) inside
validateForm replaces the error list with the freshly computed one. -/
def handleSubmitValidate (s : AppState) : AppState :=
  { s with errors := validateForm s.formData }

/-- The submitStatus values. -/
inductive SubmitStatus where
  | idle
  | sending
  | success
  deriving DecidableEq

/-- The submission-related component state: submitStatus and isSubmitting. -/
structure SubmitState where
  status : SubmitStatus
  isSubmitting : Bool
  deriving DecidableEq

/-- The submit button's disabled condition: isSubmitting or success. -/
def submitDisabled (s : SubmitState) : Bool :=
  s.isSubmitting || s.status == .success

/-- A submit click: ignored while the button is disabled; otherwise
handleSubmit runs, returns early when validation fails, and else enters the
sending state. -/
def handleSubmitClick (fd : FieldSet) (s : SubmitState) : SubmitState :=
  if submitDisabled s then s
  else if (validateForm fd).length = 0 then
    { status := .sending, isSubmitting := true }
  else s

/-- Expiry of the five-second send delay: status becomes success and
isSubmitting is cleared. -/
def onSendDelay (_ : SubmitState) : SubmitState :=
  { status := .success, isSubmitting := false }

/-- Expiry of the further five-second reset delay: status returns to idle. -/
def onResetDelay (s : SubmitState) : SubmitState :=
  { s with status := .idle }

/-- The initial submission state. -/
def idleState : SubmitState := { status := .idle, isSubmitting := false }

/-- The initial application state: default formData and no errors. -/
def initialState : AppState := { formData := initialData, errors := [] }

theorem parseField_fieldName (f : Field) : parseField (fieldName f) = some f := by
  cases f <;> rfl

theorem fieldName_of_parseField {k : String} {f : Field}
    (h : parseField k = some f) : fieldName f = k := by
  have := List.find?_some h
  simpa using this

theorem applyStep_apply (acc : FieldSet) (kv : String × JSValue) (f : Field) :
    applyStep acc kv f = if kv.1 == fieldName f then jsToString kv.2 else acc f := by
  by_cases hk : kv.1 = fieldName f
  · rw [applyStep, hk, parseField_fieldName]
    simp [setField, hk]
  · have hne : (kv.1 == fieldName f) = false := by simpa using hk
    rw [applyStep]
    cases hpf : parseField kv.1 with
    | none => simp [hne]
    | some g =>
        have hg : fieldName g = kv.1 := fieldName_of_parseField hpf
        have hgf : f ≠ g := by
          intro hfg
          exact hk (by rw [hfg, hg])
        simp [setField, hne, hgf]

theorem foldl_applyStep (entries : List (String × JSValue)) (acc : FieldSet)
    (f : Field) (h : (entries.map Prod.fst).Nodup) :
    entries.foldl applyStep acc f =
      (match entries.find? (fun kv => kv.1 == fieldName f) with
       | some kv => jsToString kv.2
       | none => acc f) := by
  induction entries generalizing acc with
  | nil => rfl
  | cons kv rest ih =>
      simp only [List.map_cons, List.nodup_cons] at h
      obtain ⟨hnot, hrest⟩ := h
      rw [List.foldl_cons, ih _ hrest]
      by_cases hp : (kv.1 == fieldName f) = true
      · have hk : kv.1 = fieldName f := by simpa using hp
        have hnone : rest.find? (fun kv' => kv'.1 == fieldName f) = none := by
          rw [List.find?_eq_none]
          intro x hx hbx
          have hx1 : x.1 = fieldName f := by simpa using hbx
          exact hnot (by
            rw [hk, ← hx1]
            exact List.mem_map_of_mem Prod.fst hx)
        rw [hnone]
        simp [List.find?, hp, applyStep_apply]
      · have hpf : (kv.1 == fieldName f) = false := by simpa using hp
        simp [List.find?, hpf, applyStep_apply]

/-- C1: each import path (JSON and CSV) normalizes the parsed record by
overlaying the default FieldSet: a field whose name occurs as a key of the
record takes the string form of the recorded value, every other field keeps
its default, keys outside the schema are dropped, and the outcome never
depends on the prior FieldSet state. -/
theorem import_normalization_overlay (entries : List (String × JSValue))
    (f : Field) (s : AppState) (row : CsvRow) (rest : List CsvRow)
    (h : (entries.map Prod.fst).Nodup) :
    (applyRecord entries f =
      match entries.find? (fun kv => kv.1 == fieldName f) with
      | some kv => jsToString kv.2
      | none => initialData f)
    ∧ (handleJsonLoad (some (JSValue.obj entries)) s).formData = applyRecord entries
    ∧ (handleCsvComplete (row :: rest) s).formData
        = applyRecord (row.map (fun kv => (kv.1, JSValue.str kv.2))) := by
  refine ⟨foldl_applyStep entries initialData f h, rfl, rfl⟩

/-- C1 witness: importing the record with temperature 25 and an unknown key
sets temperature to "25", keeps the past_flood default "no", and drops the
unknown key. -/
theorem import_normalization_overlay_witness :
    ((([(("temperature" : String), JSValue.num 25), ("bogus", JSValue.str "x")].map
        Prod.fst).Nodup)
    ∧ applyRecord [("temperature", JSValue.num 25), ("bogus", JSValue.str "x")]
        Field.temperature = "25"
    ∧ applyRecord [("temperature", JSValue.num 25), ("bogus", JSValue.str "x")]
        Field.past_flood = "no") := by
  refine ⟨by decide, ?_, ?_⟩
  · have h := (import_normalization_overlay
      [("temperature", JSValue.num 25), ("bogus", JSValue.str "x")]
      Field.temperature initialState [] [] (by decide)).1
    rw [h]
    decide
  · have h := (import_normalization_overlay
      [("temperature", JSValue.num 25), ("bogus", JSValue.str "x")]
      Field.past_flood initialState [] [] (by decide)).1
    rw [h]
    decide

theorem validate_foldl (fd : FieldSet) (l : List Field) (acc : List String) :
    l.foldl (fun acc f => if fd f = "" then acc ++ [requiredMsg f] else acc) acc
      = acc ++ (l.filter (fun f => fd f == "")).map requiredMsg := by
  induction l generalizing acc with
  | nil => simp
  | cons f l ih =>
      rw [List.foldl_cons, ih]
      by_cases h : fd f = ""
      · simp [h, List.filter_cons]
      · simp [h, List.filter_cons]

/-- C4: the Validator returns, in the fixed declaration order of the five
required fields, exactly the message fieldname-with-spaces followed by the
required suffix for each required field whose value is the empty string; a
whitespace-only value is not reported, and an all-empty FieldSet yields
exactly the five messages in order. -/
theorem validator_messages (fd : FieldSet) :
    (validateForm fd
        = (requiredFields.filter (fun f => fd f == "")).map requiredMsg)
  ∧ (∀ f : Field, requiredMsg f = underscoresToSpaces (fieldName f) ++ " is required")
  ∧ validateForm (fun _ => "")
      = ["rainfall intensity is required", "temperature is required",
         "river level is required", "elevation is required",
         "land use is required"]
  ∧ validateForm (fun _ => " ") = [] := by
  refine ⟨?_, fun _ => rfl, by decide, by decide⟩
  simpa using validate_foldl fd requiredFields []

/-- C5: the submission state machine admits exactly the claimed transitions:
a validated submit moves idle to sending, the first delay moves sending to
success, the second delay returns success to idle, a failed validation
leaves idle unchanged, and any click while the control is disabled (in
particular in the sending state) is ignored. -/
theorem submission_state_machine (fd : FieldSet) :
    (validateForm fd = [] →
        handleSubmitClick fd idleState
          = { status := .sending, isSubmitting := true })
  ∧ (validateForm fd ≠ [] → handleSubmitClick fd idleState = idleState)
  ∧ onSendDelay { status := .sending, isSubmitting := true }
      = { status := .success, isSubmitting := false }
  ∧ onResetDelay { status := .success, isSubmitting := false } = idleState
  ∧ (∀ st : SubmitState, submitDisabled st = true → handleSubmitClick fd st = st)
  ∧ submitDisabled { status := .sending, isSubmitting := true } = true := by
  refine ⟨?_, ?_, rfl, rfl, ?_, rfl⟩
  · intro h
    simp [handleSubmitClick, submitDisabled, idleState, h]
  · intro h
    have hlen : (validateForm fd).length ≠ 0 := by
      simpa [List.length_eq_zero] using h
    simp [handleSubmitClick, submitDisabled, idleState, hlen]
  · intro st hdis
    simp [handleSubmitClick, hdis]

/-- C5 witness: with every field filled, a submit from idle enters sending;
with the defaults, validation fails and the state stays idle; and a click in
the sending state is ignored. -/
theorem submission_state_machine_witness :
    (validateForm (fun _ => "1") = []
      ∧ handleSubmitClick (fun _ => "1") idleState
          = { status := .sending, isSubmitting := true })
  ∧ (validateForm initialData ≠ []
      ∧ handleSubmitClick initialData idleState = idleState)
  ∧ (submitDisabled { status := .sending, isSubmitting := true } = true
      ∧ handleSubmitClick initialData { status := .sending, isSubmitting := true }
          = { status := .sending, isSubmitting := true }) :=
  ⟨⟨by decide, (submission_state_machine (fun _ => "1")).1 (by decide)⟩,
   ⟨by decide, (submission_state_machine initialData).2.1 (by decide)⟩,
   ⟨by decide,
    (submission_state_machine initialData).2.2.2.2.1
      { status := .sending, isSubmitting := true } (by decide)⟩⟩

/-- C6: both error-producing operations, a file import and a submit
attempt's validation, write the error list afresh: the resulting error list
is the same whatever error list was present before, so errors are replaced
wholesale and never appended. -/
theorem errors_replaced_wholesale (f : UploadFile) (fd : FieldSet)
    (e₁ e₂ : List String) :
    (handleFileUpload f { formData := fd, errors := e₁ }).errors
      = (handleFileUpload f { formData := fd, errors := e₂ }).errors
  ∧ (handleSubmitValidate { formData := fd, errors := e₁ }).errors
      = (handleSubmitValidate { formData := fd, errors := e₂ }).errors := by
  refine ⟨?_, rfl⟩
  unfold handleFileUpload
  split_ifs
  · cases f.jsonResult with
    | none => rfl
    | some v => cases v <;> rfl
  · cases f.csvResult with
    | rows rs => cases rs <;> rfl
    | err => rfl
  · rfl

/-- C8: a CSV import with at least one data row consumes only the first data
row, so any later rows never change the outcome and cause no error, and it
succeeds with the errors cleared; a CSV with zero data rows fails with the
empty-or-invalid error and an untouched FieldSet. -/
theorem csv_first_row_only (row : CsvRow) (rest : List CsvRow) (s : AppState) :
    (handleCsvComplete (row :: rest) s
      = { formData := applyRecord (row.map (fun kv => (kv.1, JSValue.str kv.2))),
          errors := [] })
  ∧ handleCsvComplete (row :: rest) s = handleCsvComplete [row] s
  ∧ (handleCsvComplete [] s).errors = ["CSV file is empty or invalid"]
  ∧ (handleCsvComplete [] s).formData = s.formData :=
  ⟨rfl, rfl, rfl, rfl⟩

/-- C9: the import stringifies a schema-keyed value of any type and never
rejects it on type grounds: a record carrying an arbitrary value under the
temperature key always imports without error and stores exactly the
JavaScript string form of the value, which renders null as "null", any
object as "[object Object]", and an array as the comma-join of its element
forms. -/
theorem import_stringifies_any_type (v : JSValue) (s : AppState)
    (kvs : List (String × JSValue)) (xs : List JSValue) :
    (handleJsonLoad (some (JSValue.obj [("temperature", v)])) s).errors = []
  ∧ (handleJsonLoad (some (JSValue.obj [("temperature", v)])) s).formData
      Field.temperature = jsToString v
  ∧ jsToString JSValue.null = "null"
  ∧ jsToString (JSValue.obj kvs) = "[object Object]"
  ∧ jsToString (JSValue.arr xs) = String.intercalate "," (jsElemStrs xs)
  ∧ jsToString (JSValue.arr [JSValue.num 1, JSValue.num 2, JSValue.null])
      = "1,2," :=
  ⟨rfl, rfl, rfl, rfl, rfl, by decide⟩

/-- C2 counterexample: a JSON file whose content parses to the bare number
five, a top-level value that is not object-like, does not fail: the import
succeeds and clears a pre-existing error, refuting that every non-object
top-level value yields a MalformedInput failure. -/
theorem json_number_toplevel_succeeds :
    (handleFileUpload
        { name := "data.json", jsonResult := some (JSValue.num 5),
          csvResult := CsvOutcome.err }
        { formData := initialData, errors := ["Invalid JSON file format"] }).errors
      = [] := by decide

/-- C2 amended: for a file with extension json, the import fails with the
single MalformedInput message if and only if JSON parsing throws or the
parsed top-level value is null; every non-null top-level value, object-like
or not, succeeds. -/
theorem json_failure_iff_throw_or_null (f : UploadFile) (s : AppState)
    (h : getExtension f.name = "json") :
    (handleFileUpload f s).errors = ["Invalid JSON file format"]
      ↔ f.jsonResult = none ∨ f.jsonResult = some JSValue.null := by
  have hdisp : handleFileUpload f s = handleJsonLoad f.jsonResult s := by
    simp [handleFileUpload, h]
  rw [hdisp]
  cases f.jsonResult with
  | none => simp [handleJsonLoad]
  | some v => cases v <;> simp [handleJsonLoad, ownEntries]

/-- C2 amended witness: on a json file whose parse throws, the import fails
with the MalformedInput message. -/
theorem json_failure_iff_throw_or_null_witness :
    getExtension "data.json" = "json"
  ∧ ((handleFileUpload
        { name := "data.json", jsonResult := none, csvResult := CsvOutcome.err }
        initialState).errors = ["Invalid JSON file format"]
      ↔ (none : Option JSValue) = none
        ∨ (none : Option JSValue) = some JSValue.null) :=
  ⟨by decide,
   json_failure_iff_throw_or_null
     { name := "data.json", jsonResult := none, csvResult := CsvOutcome.err }
     initialState (by decide)⟩

/-- C3: a failed import (unsupported extension, malformed JSON, empty or
malformed CSV) leaves the FieldSet exactly as it was and records exactly one
error, while a successful import replaces the whole FieldSet with a result
independent of the prior state and clears the error list. -/
theorem import_success_replaces_failure_preserves (f : UploadFile) (s : AppState) :
    ((handleFileUpload f s).errors = [] →
        ∀ s₂ : AppState,
          (handleFileUpload f s₂).formData = (handleFileUpload f s).formData)
  ∧ ((handleFileUpload f s).errors ≠ [] →
        (handleFileUpload f s).formData = s.formData
      ∧ (handleFileUpload f s).errors.length = 1) := by
  unfold handleFileUpload
  split_ifs
  · cases f.jsonResult with
    | none => simp [handleJsonLoad]
    | some v => cases v <;> simp [handleJsonLoad, ownEntries]
  · cases f.csvResult with
    | rows rs => cases rs <;> simp [handleCsvOutcome, handleCsvComplete]
    | err => simp [handleCsvOutcome]
  · simp

/-- C3 witness: importing a txt file from the default state fails, keeps the
FieldSet untouched and records exactly one error; the hypotheses of both
directions are discharged on concrete inputs. -/
theorem import_success_replaces_failure_preserves_witness :
    ((handleFileUpload
        { name := "a.txt", jsonResult := none, csvResult := CsvOutcome.err }
        initialState).errors ≠ []
    ∧ ((handleFileUpload
          { name := "a.txt", jsonResult := none, csvResult := CsvOutcome.err }
          initialState).formData = initialState.formData
      ∧ (handleFileUpload
          { name := "a.txt", jsonResult := none, csvResult := CsvOutcome.err }
          initialState).errors.length = 1)) :=
  ⟨by decide,
   (import_success_replaces_failure_preserves
      { name := "a.txt", jsonResult := none, csvResult := CsvOutcome.err }
      initialState).2 (by decide)⟩

/-- C7: the dispatch extracts the extension case-insensitively; a json
extension reaches the JSON parser, a csv extension reaches the CSV parser,
and any other extension is rejected with the unsupported-type error, leaving
the FieldSet untouched and never consulting either parser outcome. -/
theorem extension_dispatch (f : UploadFile) (s : AppState) :
    (getExtension f.name = "json" →
        handleFileUpload f s = handleJsonLoad f.jsonResult s)
  ∧ (getExtension f.name = "csv" →
        handleFileUpload f s = handleCsvOutcome f.csvResult s)
  ∧ (getExtension f.name ≠ "json" → getExtension f.name ≠ "csv" →
        (handleFileUpload f s).errors
            = ["Unsupported file type. Please use JSON or CSV."]
      ∧ (handleFileUpload f s).formData = s.formData
      ∧ ∀ (jr : Option JSValue) (co : CsvOutcome),
          handleFileUpload { name := f.name, jsonResult := jr, csvResult := co } s
            = handleFileUpload f s)
  ∧ getExtension "DATA.JSON" = "json"
  ∧ getExtension "Data.Csv" = "csv" := by
  refine ⟨fun h => by simp [handleFileUpload, h],
          fun h => by simp [handleFileUpload, h],
          fun h1 h2 => ?_, by decide, by decide⟩
  simp [handleFileUpload, h1, h2]

/-- C7 witness: a txt upload is rejected with the unsupported-type error,
its FieldSet untouched, with the same outcome whatever the parser oracles
would have produced. -/
theorem extension_dispatch_witness :
    getExtension "notes.txt" ≠ "json"
  ∧ getExtension "notes.txt" ≠ "csv"
  ∧ ((handleFileUpload
        { name := "notes.txt", jsonResult := some (JSValue.num 1),
          csvResult := CsvOutcome.rows [] } initialState).errors
        = ["Unsupported file type. Please use JSON or CSV."]
    ∧ (handleFileUpload
        { name := "notes.txt", jsonResult := some (JSValue.num 1),
          csvResult := CsvOutcome.rows [] } initialState).formData
        = initialState.formData
    ∧ ∀ (jr : Option JSValue) (co : CsvOutcome),
        handleFileUpload { name := "notes.txt", jsonResult := jr, csvResult := co }
          initialState
        = handleFileUpload
            { name := "notes.txt", jsonResult := some (JSValue.num 1),
              csvResult := CsvOutcome.rows [] } initialState) :=
  ⟨by decide, by decide,
   (extension_dispatch
      { name := "notes.txt", jsonResult := some (JSValue.num 1),
        csvResult := CsvOutcome.rows [] } initialState).2.2.1
     (by decide) (by decide)⟩

theorem splitOnChar_ne_nil (c : Char) (l : List Char) : splitOnChar c l ≠ [] := by
  cases l with
  | nil => simp [splitOnChar]
  | cons x xs =>
      unfold splitOnChar
      cases h : splitOnChar c xs with
      | nil => simp
      | cons s rest => by_cases hx : x = c <;> simp [hx]

theorem splitOnChar_no_sep (c : Char) (l : List Char) (h : ∀ x ∈ l, x ≠ c) :
    splitOnChar c l = [l] := by
  induction l with
  | nil => rfl
  | cons x xs ih =>
      have hx : x ≠ c := h x (by simp)
      have hxs : ∀ y ∈ xs, y ≠ c := fun y hy => h y (by simp [hy])
      unfold splitOnChar
      rw [ih hxs]
      simp [hx]

theorem splitOnChar_length_of_mem (c : Char) (l : List Char) (h : c ∈ l) :
    2 ≤ (splitOnChar c l).length := by
  induction l with
  | nil => cases h
  | cons x xs ih =>
      unfold splitOnChar
      cases hs : splitOnChar c xs with
      | nil => exact absurd hs (splitOnChar_ne_nil c xs)
      | cons s rest =>
          by_cases hx : x = c
          · simp [hx]
          · have hc : c ∈ xs := by
              rcases List.mem_cons.mp h with h' | h'
              · exact absurd h'.symm hx
              · exact h'
            have h2 := ih hc
            rw [hs] at h2
            simp only [List.length_cons] at h2
            simp [hx]
            omega

theorem getLastD_congr {α : Type} (l : List α) (a b : α) (h : l ≠ []) :
    l.getLastD a = l.getLastD b := by
  cases l with
  | nil => exact absurd rfl h
  | cons x xs => rw [List.getLastD_cons, List.getLastD_cons]

theorem splitOnChar_cons (c x : Char) (xs : List Char) :
    splitOnChar c (x :: xs)
      = match splitOnChar c xs with
        | [] => [[]]
        | s :: rest => if x = c then [] :: s :: rest else (x :: s) :: rest := rfl

theorem splitOnChar_last_after_sep (c : Char) (a b : List Char) :
    (splitOnChar c (a ++ c :: b)).getLastD []
      = (splitOnChar c b).getLastD [] := by
  induction a with
  | nil =>
      rw [List.nil_append, splitOnChar_cons]
      cases h : splitOnChar c b with
      | nil => exact absurd h (splitOnChar_ne_nil c b)
      | cons s rest =>
          show (if c = c then [] :: s :: rest else (c :: s) :: rest).getLastD []
                = (s :: rest).getLastD []
          rw [if_pos rfl, List.getLastD_cons]
  | cons x xs ih =>
      rw [List.cons_append, splitOnChar_cons]
      cases h : splitOnChar c (xs ++ c :: b) with
      | nil => exact absurd h (splitOnChar_ne_nil _ _)
      | cons s rest =>
          have hmem : c ∈ xs ++ c :: b := by simp
          have hlen := splitOnChar_length_of_mem c (xs ++ c :: b) hmem
          rw [h] at hlen
          simp only [List.length_cons] at hlen
          have hrest : rest ≠ [] := by
            intro hr
            rw [hr] at hlen
            simp at hlen
          rw [h] at ih
          rw [List.getLastD_cons] at ih
          show (if x = c then [] :: s :: rest else (x :: s) :: rest).getLastD []
                = (splitOnChar c b).getLastD []
          by_cases hx : x = c
          · rw [if_pos hx, List.getLastD_cons, List.getLastD_cons, ih]
          · rw [if_neg hx, List.getLastD_cons, ← ih]
            exact getLastD_congr rest (x :: s) s hrest

/-- C10: the dispatch extension is the substring after the last dot of the
file name, lowercased; a dotless name serves whole as its own extension, so
a dotless file named json or csv (in any letter case) reaches the matching
parser while every other dotless name is rejected as unsupported. -/
theorem extension_is_after_last_dot :
    (∀ name : String, (∀ x ∈ name.data, x ≠ '.') →
        getExtension name = String.mk (name.data.map Char.toLower))
  ∧ (∀ a b : List Char, (∀ x ∈ b, x ≠ '.') →
        getExtension (String.mk (a ++ '.' :: b))
          = String.mk (b.map Char.toLower))
  ∧ (∀ (jr : Option JSValue) (co : CsvOutcome) (s : AppState),
        handleFileUpload { name := "json", jsonResult := jr, csvResult := co } s
          = handleJsonLoad jr s
      ∧ handleFileUpload { name := "CSV", jsonResult := jr, csvResult := co } s
          = handleCsvOutcome co s
      ∧ (handleFileUpload { name := "data", jsonResult := jr, csvResult := co }
            s).errors
          = ["Unsupported file type. Please use JSON or CSV."]) := by
  refine ⟨?_, ?_, fun jr co s => ⟨rfl, rfl, rfl⟩⟩
  · intro name h
    unfold getExtension
    rw [splitOnChar_no_sep '.' name.data h, List.getLastD_cons, List.getLastD_nil]
  · intro a b h
    unfold getExtension
    have hdata : (String.mk (a ++ '.' :: b)).data = a ++ '.' :: b := rfl
    rw [hdata, splitOnChar_last_after_sep, splitOnChar_no_sep '.' b h,
        List.getLastD_cons, List.getLastD_nil]

/-- C10 witness: a dotless name is its own lowercased extension, and the
extension of a dotted name is the lowercased part after the last dot. -/
theorem extension_is_after_last_dot_witness :
    ((∀ x ∈ ("readme" : String).data, x ≠ '.')
      ∧ getExtension "readme" = String.mk (("readme" : String).data.map Char.toLower))
  ∧ getExtension (String.mk (['a'] ++ '.' :: ['T', 'X', 'T']))
      = String.mk (['T', 'X', 'T'].map Char.toLower) :=
  ⟨⟨by decide, extension_is_after_last_dot.1 "readme" (by decide)⟩,
   extension_is_after_last_dot.2.1 ['a'] ['T', 'X', 'T'] (by decide)⟩

end FloodForm
